import Mathlib

/-!
Shallow embedding of the scoring/aggregation core of the training-project
repository (src/services/aiService.ts, src/services/mlService.ts,
src/utils/helpers.ts, src/routes/ai.ts, src/routes/ml.ts), together with
theorems settling the frozen claims about it.

JS strings are modelled as `List Char`; JS numbers are modelled as exact
rationals (`ℚ`) in the text-analysis and statistics code, and as reals
(`ℝ`) where the code uses transcendental functions (`Math.exp`,
`Math.sqrt`).  The JS value `NaN`, which arises in this code base only
from the division `0/0` in `anomalyDetection` on an empty feature
vector, is modelled by `Option` (`none` = NaN).  Wall-clock fields
(`processingTime`) and the PRNG draw in `linearRegression` are not part
of the deterministic core: the former is omitted, the latter is taken as
an explicit parameter.
-/

namespace TrainingProject

/-- JS strings, modelled as their character sequences. -/
abbrev Str := List Char

/-- JS `String.prototype.toLowerCase` (per-character; exact on ASCII,
which is all the fixed word lists use). -/
def lowerStr (s : Str) : Str := s.map Char.toLower

/-- JS `String.prototype.split` with a single-character separator
predicate: every delimiter character ends a segment, so consecutive
delimiters produce empty segments, exactly like `"a  b".split(' ')`
= `["a", "", "b"]` and `"".split(' ')` = `[""]`. -/
def splitOnPred (p : Char → Bool) : Str → List Str
  | [] => [[]]
  | c :: rest =>
    match splitOnPred p rest with
    | [] => if p c then [[], []] else [[c]]
    | s :: ss => if p c then [] :: s :: ss else (c :: s) :: ss

/- ===== aiService.ts : analyzeSentiment ===== -/

/-- The fixed positive word list of `AIService.analyzeSentiment`. -/
def positiveWords : List Str :=
  ["good".toList, "great".toList, "excellent".toList, "amazing".toList,
   "wonderful".toList, "fantastic".toList, "love".toList, "like".toList,
   "happy".toList, "joy".toList]

/-- The fixed negative word list of `AIService.analyzeSentiment`. -/
def negativeWords : List Str :=
  ["bad".toList, "terrible".toList, "awful".toList, "hate".toList,
   "dislike".toList, "sad".toList, "angry".toList, "frustrated".toList,
   "disappointed".toList]

/-- The `words.forEach` loop of `analyzeSentiment`: one pass over the
word list incrementing the two counters `positiveScore` and
`negativeScore`. -/
def sentimentCounts (words : List Str) : ℕ × ℕ :=
  words.foldl
    (fun counts word =>
      ((if positiveWords.contains word then counts.1 + 1 else counts.1),
       (if negativeWords.contains word then counts.2 + 1 else counts.2)))
    (0, 0)

structure SentimentResult where
  sentiment : String
  confidence : ℚ
  positive : ℕ
  negative : ℕ
  neutral : ℤ
  deriving DecidableEq

/-- `AIService.analyzeSentiment` (aiService.ts lines 22-68), minus the
wall-clock `processingTime` field.  Note the code splits the lower-cased
text on the single space character `' '`. -/
def analyzeSentiment (text : Str) : SentimentResult :=
  let words := splitOnPred (fun c => c = ' ') (lowerStr text)
  let positiveScore := (sentimentCounts words).1
  let negativeScore := (sentimentCounts words).2
  let totalScore : ℤ := (positiveScore : ℤ) - (negativeScore : ℤ)
  if totalScore > 0 then
    ⟨"positive", min (9/10) (1/2 + (totalScore : ℚ) * (1/10)),
     positiveScore, negativeScore,
     (words.length : ℤ) - positiveScore - negativeScore⟩
  else if totalScore < 0 then
    ⟨"negative", min (9/10) (1/2 + |(totalScore : ℚ)| * (1/10)),
     positiveScore, negativeScore,
     (words.length : ℤ) - positiveScore - negativeScore⟩
  else
    ⟨"neutral", 3/5, positiveScore, negativeScore,
     (words.length : ℤ) - positiveScore - negativeScore⟩

/-- The sentiment algorithm exactly as the claim words it, parametrised
by the splitting function, with the match counts written as `countP`.
Instantiating `split` with a whitespace split gives the claim as stated;
instantiating it with a split on `' '` gives the amended claim. -/
def sentimentClaim (split : Str → List Str) (text : Str) : SentimentResult :=
  let words := split (lowerStr text)
  let p := words.countP (fun w => positiveWords.contains w)
  let n := words.countP (fun w => negativeWords.contains w)
  let score : ℤ := (p : ℤ) - (n : ℤ)
  if score > 0 then
    ⟨"positive", min (9/10) (1/2 + (score : ℚ) * (1/10)), p, n,
     (words.length : ℤ) - p - n⟩
  else if score < 0 then
    ⟨"negative", min (9/10) (1/2 + |(score : ℚ)| * (1/10)), p, n,
     (words.length : ℤ) - p - n⟩
  else
    ⟨"neutral", 3/5, p, n, (words.length : ℤ) - p - n⟩

/-- Whitespace in the sense of JS `\s` (the ASCII part, which is all
that the claims exercise). -/
def isJsWhitespace (c : Char) : Bool :=
  c = ' ' || c = '\t' || c = '\n' || c = '\r' || c = '\x0b' || c = '\x0c'

/- ===== aiService.ts : classifyText ===== -/

/-- JS `String.prototype.includes`: `hasSubstr pat hay` holds iff `pat`
occurs contiguously in `hay`. -/
def hasSubstr (pat : Str) : Str → Bool
  | [] => pat.isEmpty
  | c :: rest => pat.isPrefixOf (c :: rest) || hasSubstr pat rest

/-- The fixed category table of `AIService.classifyText` (name and
keyword list), in source order. -/
def categories : List (String × List Str) :=
  [("technology", ["ai".toList, "machine learning".toList, "software".toList,
                   "computer".toList, "programming".toList, "code".toList]),
   ("business", ["revenue".toList, "profit".toList, "market".toList,
                 "sales".toList, "customer".toList, "strategy".toList]),
   ("science", ["research".toList, "study".toList, "experiment".toList,
                "data".toList, "analysis".toList, "hypothesis".toList]),
   ("entertainment", ["movie".toList, "music".toList, "game".toList,
                      "fun".toList, "entertainment".toList, "show".toList]),
   ("sports", ["game".toList, "team".toList, "player".toList,
               "score".toList, "match".toList, "competition".toList])]

structure ScoredCategory where
  category : String
  score : ℕ
  confidence : ℚ
  deriving DecidableEq

/-- One entry of the `categoryScores` array: the keyword `reduce` counts
how many of the category's keywords occur as substrings of the
lower-cased text. -/
def scoreCategory (textLower : Str) (cat : String × List Str) : ScoredCategory :=
  let score := cat.2.countP (fun keyword => hasSubstr keyword textLower)
  ⟨cat.1, score, min (19/20) ((score : ℚ) * (1/5) + 1/10)⟩

/-- The `categoryScores` array of `classifyText`. -/
def categoryScores (text : Str) : List ScoredCategory :=
  categories.map (scoreCategory (lowerStr text))

/-- The body of the `categoryScores.reduce((prev, current) => ...)`
callback: keep `prev` only when its score is strictly greater. -/
def jsPickTop (prev current : ScoredCategory) : ScoredCategory :=
  if prev.score > current.score then prev else current

/-- JS `Array.prototype.reduce` without an initial value: `none` models
the `TypeError` thrown on an empty array. -/
def jsReduce (f : α → α → α) : List α → Option α
  | [] => none
  | a :: l => some (l.foldl f a)

/-- The `topCategory` value of `classifyText`. -/
def topCategory? (text : Str) : Option ScoredCategory :=
  jsReduce jsPickTop (categoryScores text)

structure ClassifyResult where
  category : String
  confidence : ℚ
  allScores : List ScoredCategory
  deriving DecidableEq

/-- `AIService.classifyText` (aiService.ts lines 70-105), minus the
wall-clock `processingTime` field.  The `none` fallback is unreachable:
`categories` is non-empty, so the JS `reduce` cannot throw. -/
def classifyText (text : Str) : ClassifyResult :=
  match topCategory? text with
  | some top => ⟨top.category, top.confidence, categoryScores text⟩
  | none => ⟨"", 0, categoryScores text⟩

/-- The maximal score among a list of scored categories. -/
def maxScore (l : List ScoredCategory) : ℕ :=
  (l.map (fun c => c.score)).foldl max 0

/-- The claim's tie-break reading: the winner is the first category in
enumeration order whose score is maximal. -/
def firstMaxCategory (l : List ScoredCategory) : Option String :=
  (l.find? (fun c => c.score = maxScore l)).map (fun c => c.category)

/- ===== aiService.ts : summarizeText ===== -/

/-- Sentence-ending punctuation, the character class of the regex
`/[.!?]+/`. -/
def sentencePunct (c : Char) : Bool := c = '.' || c = '!' || c = '?'

/-- Worker for `splitRuns`: `prevDelim` records whether the previous
character belonged to a delimiter run, `acc` holds the current segment
reversed. -/
def splitRunsGo (p : Char → Bool) : Bool → Str → Str → List Str
  | _, acc, [] => [acc.reverse]
  | prevDelim, acc, c :: rest =>
    if p c then
      if prevDelim then splitRunsGo p true acc rest
      else acc.reverse :: splitRunsGo p true [] rest
    else splitRunsGo p false (c :: acc) rest

/-- JS `String.prototype.split` with a one-character-class-plus regex
such as `/[.!?]+/`: maximal delimiter runs separate segments, so
`"a.!b"` gives `["a","b"]`, `".a"` gives `["","a"]` and `"a."` gives
`["a",""]`. -/
def splitRuns (p : Char → Bool) (s : Str) : List Str :=
  splitRunsGo p false [] s

/-- JS `String.prototype.trim` (ASCII whitespace). -/
def jsTrim (s : Str) : Str :=
  ((s.dropWhile isJsWhitespace).reverse.dropWhile isJsWhitespace).reverse

/-- The filtered sentence list of `summarizeText`:
`text.split(/[.!?]+/).filter(s => s.trim().length > 0)`. -/
def sentencesOf (text : Str) : List Str :=
  (splitRuns sentencePunct text).filter (fun s => (jsTrim s).length > 0)

/-- JS `Number.prototype.toFixed(2)`, read back as a number.  Exact
rational arithmetic stands in for IEEE doubles here. -/
def toFixed2 (q : ℚ) : ℚ := (round (100 * q) : ℤ) / 100

structure SummaryResult where
  summary : Str
  originalLength : ℕ
  summaryLength : ℕ
  compressionRatio : Option ℚ
  deriving DecidableEq

/-- `AIService.summarizeText` (aiService.ts lines 107-129), minus the
wall-clock `processingTime` field.  The `maxTokens` parameter (default
100 in the source) is accepted and ignored, as in the source.
`compressionRatio` is `none` when the text is empty (the JS division
`1/0` renders as `"Infinity"`).  Exact rational arithmetic stands in
for IEEE doubles in `sentences.length * 0.3` (they differ only for
sentence counts ≥ 10, e.g. `10 * 0.3 = 2.9999999999999996` as doubles;
no claim depends on that regime). -/
def summarizeText (text : Str) (maxTokens : ℕ := 100) : SummaryResult :=
  let sentences := sentencesOf text
  let summaryLength : ℤ := min 3 (max 1 ⌊(sentences.length : ℚ) * (3/10)⌋)
  let summary :=
    (List.intercalate ". ".toList (sentences.take summaryLength.toNat)) ++ ['.']
  ⟨summary, text.length, summary.length,
   if text.length = 0 then none
   else some (toFixed2 ((summary.length : ℚ) / (text.length : ℚ)))⟩

/- ===== aiService.ts : extractEntities ===== -/

inductive EntityType
  | email
  | phone
  | date
  | url
  | money
  deriving DecidableEq

/-- The iteration order of `Object.entries(patterns)` in
`extractEntities` (insertion order of the pattern object). -/
def entityTypeOrder : List EntityType :=
  [.email, .phone, .date, .url, .money]

structure Entity where
  text : Str
  type : EntityType
  confidence : ℚ
  startIndex : ℤ
  endIndex : ℤ
  deriving DecidableEq

/-- Worker for `strIndexOf`: position of the first suffix of which
`pat` is a prefix. -/
def indexOfAux (pat : Str) : Str → Option ℕ
  | [] => if pat.isEmpty then some 0 else none
  | c :: rest =>
    if pat.isPrefixOf (c :: rest) then some 0
    else (indexOfAux pat rest).map (fun i => i + 1)

/-- JS `String.prototype.indexOf`: index of the first occurrence of
`pat` in `s`, or `-1` when there is none. -/
def strIndexOf (s pat : Str) : ℤ :=
  match indexOfAux pat s with
  | some i => (i : ℤ)
  | none => -1

/-- The entity object pushed for one regex match `m`: fixed confidence
0.9, and indices taken from `text.indexOf(m)` — the first occurrence of
the matched substring, regardless of which occurrence matched. -/
def mkEntity (text : Str) (ty : EntityType) (m : Str) : Entity :=
  ⟨m, ty, 9/10, strIndexOf text m, strIndexOf text m + (m.length : ℤ)⟩

/-- `AIService.extractEntities` (aiService.ts lines 174-220), minus the
wall-clock `processingTime` field, parametrised by the regex engine:
`matchOf ty text` stands for `text.match(patterns[ty])`, with `none`
modelling the `null` returned when there is no match.  The regex engine
itself is the JS runtime's, not code of this repository; everything the
claims say about `extractEntities` holds for every matcher. -/
def extractEntities (matchOf : EntityType → Str → Option (List Str))
    (text : Str) : List Entity :=
  entityTypeOrder.foldl
    (fun entities ty =>
      match matchOf ty text with
      | none => entities
      | some ms => entities ++ ms.map (mkEntity text ty))
    []

structure EntitiesResult where
  entities : List Entity
  totalEntities : ℕ
  deriving DecidableEq

/-- The full result object of `extractEntities`. -/
def extractEntitiesResult (matchOf : EntityType → Str → Option (List Str))
    (text : Str) : EntitiesResult :=
  ⟨extractEntities matchOf text, (extractEntities matchOf text).length⟩

/- ===== aiService.ts : translateText ===== -/

/-- Worker for `replaceAll`, with explicit fuel.  Each step either
consumes one character or, on a match of the non-empty pattern, at least
one character, so fuel `s.length` is always sufficient. -/
def replaceAllAux (pat rep : Str) : ℕ → Str → Str
  | 0, l => l
  | _ + 1, [] => []
  | fuel + 1, c :: rest =>
    if pat.isPrefixOf (c :: rest) && !pat.isEmpty then
      rep ++ replaceAllAux pat rep fuel (List.drop pat.length (c :: rest))
    else c :: replaceAllAux pat rep fuel rest

/-- JS `String.prototype.replace` with a global pattern: replace every
left-to-right non-overlapping occurrence of `pat` (never empty in this
code base) by `rep`, never rescanning replacement text. -/
def replaceAll (pat rep s : Str) : Str :=
  replaceAllAux pat rep s.length s

/-- The fixed translation dictionary of `AIService.translateText`, in
`Object.entries` (insertion) order.  The `"maÃ±ana"` mojibake is exactly
what the source file contains. -/
def translations : List (String × List (Str × Str)) :=
  [("es", [("hello".toList, "hola".toList),
           ("world".toList, "mundo".toList),
           ("good".toList, "bueno".toList),
           ("morning".toList, "maÃ±ana".toList),
           ("thank you".toList, "gracias".toList)]),
   ("fr", [("hello".toList, "bonjour".toList),
           ("world".toList, "monde".toList),
           ("good".toList, "bon".toList),
           ("morning".toList, "matin".toList),
           ("thank you".toList, "merci".toList)])]

structure TranslationResult where
  originalText : Str
  translatedText : Str
  sourceLanguage : String
  targetLanguage : String
  confidence : ℚ
  deriving DecidableEq

/-- `AIService.translateText` (aiService.ts lines 131-172), minus the
wall-clock `processingTime` field.  The text is lower-cased first, so
the `i` regex flag has no further effect. -/
def translateText (text : Str) (targetLanguage : String := "es") :
    TranslationResult :=
  let langTranslations :=
    ((translations.find? (fun p => p.1 = targetLanguage)).map
      (fun p => p.2)).getD []
  let translatedText :=
    langTranslations.foldl (fun t pair => replaceAll pair.1 pair.2 t)
      (lowerStr text)
  ⟨text, translatedText, "en", targetLanguage, 17/20⟩

/- ===== aiService.ts : processAnalysis ===== -/

inductive AnalysisType
  | sentiment
  | classification
  | summarization
  | translation
  | entity_extraction
  deriving DecidableEq

structure AIAnalysisOptions where
  language : Option String
  maxTokens : Option ℕ
  deriving DecidableEq

structure AIAnalysisRequest where
  text : Str
  analysisType : AnalysisType
  options : Option AIAnalysisOptions
  deriving DecidableEq

inductive AnalysisData
  | sentiment (r : SentimentResult)
  | classification (r : ClassifyResult)
  | summarization (r : SummaryResult)
  | translation (r : TranslationResult)
  | entities (r : EntitiesResult)
  deriving DecidableEq

/-- The `confidence` field of the per-analyzer result object, `none`
when the object has no such field (summarization, entity extraction). -/
def analysisDataConfidence : AnalysisData → Option ℚ
  | .sentiment r => some r.confidence
  | .classification r => some r.confidence
  | .summarization _ => none
  | .translation r => some r.confidence
  | .entities _ => none

/-- JS `a || b` on an optional number: `undefined`, `0` (and `NaN`,
which cannot occur here) are falsy and select the default. -/
def jsOrDefault (o : Option ℚ) (d : ℚ) : ℚ :=
  match o with
  | none => d
  | some c => if c = 0 then d else c

structure AIAnalysisResponse where
  analysisType : AnalysisType
  confidence : ℚ
  data : AnalysisData
  tokensUsed : ℕ
  deriving DecidableEq

/-- `AIService.processAnalysis` (aiService.ts lines 222-267), minus the
wall-clock fields, parametrised by the regex engine for the
entity-extraction branch.  `confidence` is `result.confidence || 0.8`;
`tokensUsed` is `Math.floor(text.length / 4)`. -/
def processAnalysis (matchOf : EntityType → Str → Option (List Str))
    (request : AIAnalysisRequest) : AIAnalysisResponse :=
  let data : AnalysisData :=
    match request.analysisType with
    | .sentiment => .sentiment (analyzeSentiment request.text)
    | .classification => .classification (classifyText request.text)
    | .summarization =>
        .summarization (summarizeText request.text
          ((request.options.bind (fun o => o.maxTokens)).getD 100))
    | .translation =>
        .translation (translateText request.text
          ((request.options.bind (fun o => o.language)).getD "es"))
    | .entity_extraction => .entities (extractEntitiesResult matchOf request.text)
  ⟨request.analysisType, jsOrDefault (analysisDataConfidence data) (4/5),
   data, request.text.length / 4⟩

/- ===== utils/helpers.ts : calculateMedian, calculatePercentile ===== -/

/-- `[...numbers].sort((a, b) => a - b)`: ascending sort of a copy.
`List.insertionSort` is a stable ascending sort, which is what the
ECMAScript comparator sort produces for this comparator. -/
def sortAsc (numbers : List ℚ) : List ℚ :=
  List.insertionSort (fun a b => a ≤ b) numbers

/-- `calculatePercentile` (helpers.ts lines 34-41).  The result is
`Option`-valued because `sorted[Math.max(0, index)]` is `undefined`
whenever the index falls beyond the array (e.g. `percentile > 100`);
the empty-array case returns the number `0`. -/
def calculatePercentile (numbers : List ℚ) (percentile : ℚ) : Option ℚ :=
  if numbers.length = 0 then some 0
  else
    let sorted := sortAsc numbers
    let index : ℤ := ⌈percentile / 100 * (sorted.length : ℚ)⌉ - 1
    sorted.get? (max 0 index).toNat

/-- A mutable-array store: JS array references are indices into it. -/
abbrev ArrayStore := List (List ℚ)

/-- Dereference an array; a dangling reference reads as empty. -/
def readArr (st : ArrayStore) (r : ℕ) : List ℚ := st.getD r []

/-- Overwrite the contents of the array behind `r`. -/
def writeArr (st : ArrayStore) (r : ℕ) (v : List ℚ) : ArrayStore :=
  st.set r v

/-- Allocate a fresh array (the spread `[...numbers]`): returns the new
store and the new reference. -/
def allocArr (st : ArrayStore) (v : List ℚ) : ArrayStore × ℕ :=
  (st ++ [v], st.length)

/-- `calculateMedian` (helpers.ts lines 23-32) as a store transformer:
`numbersRef` is the caller's array; `[...numbers]` allocates a copy and
`.sort` mutates only that copy, in place. -/
def calculateMedianS (st : ArrayStore) (numbersRef : ℕ) :
    Option ℚ × ArrayStore :=
  let numbers := readArr st numbersRef
  if numbers.length = 0 then (some 0, st)
  else
    let alloc := allocArr st numbers
    let st2 := writeArr alloc.1 alloc.2 (sortAsc (readArr alloc.1 alloc.2))
    let sorted := readArr st2 alloc.2
    let mid := sorted.length / 2
    (if sorted.length % 2 ≠ 0 then sorted.get? mid
     else do
       let a ← sorted.get? (mid - 1)
       let b ← sorted.get? mid
       pure ((a + b) / 2),
     st2)

/-- `calculatePercentile` as a store transformer, built like
`calculateMedianS`. -/
def calculatePercentileS (st : ArrayStore) (numbersRef : ℕ)
    (percentile : ℚ) : Option ℚ × ArrayStore :=
  let numbers := readArr st numbersRef
  if numbers.length = 0 then (some 0, st)
  else
    let alloc := allocArr st numbers
    let st2 := writeArr alloc.1 alloc.2 (sortAsc (readArr alloc.1 alloc.2))
    let sorted := readArr st2 alloc.2
    let index : ℤ := ⌈percentile / 100 * (sorted.length : ℚ)⌉ - 1
    (sorted.get? (max 0 index).toNat, st2)

/- ===== routes/ai.ts and routes/ml.ts : batch endpoints ===== -/

structure BatchItemOutcome (β : Type) where
  index : ℕ
  success : Bool
  value : Option β
  error : Option String
  deriving DecidableEq

structure BatchSummary where
  total : ℕ
  successful : ℕ
  failed : ℕ
  deriving DecidableEq

/-- One entry of the `requests.map(async (request, index) => ...)`
callback: a thrown error is caught and converted into a
`success: false` outcome carrying the route's fixed error message. -/
def batchItem (process : α → Except String β) (failMsg : String)
    (i : ℕ) (request : α) : BatchItemOutcome β :=
  match process request with
  | .ok v => ⟨i, true, some v, none⟩
  | .error _ => ⟨i, false, none, some failMsg⟩

/-- The `results` array of the batch handlers: `Promise.all` over
`requests.map` preserves input order. -/
def batchResults (process : α → Except String β) (failMsg : String)
    (requests : List α) : List (BatchItemOutcome β) :=
  requests.enum.map (fun p => batchItem process failMsg p.1 p.2)

/-- The shared shape of `POST /batch-analyze` (routes/ai.ts lines
224-302, `maxItems = 10`) and `POST /batch-predict` (routes/ml.ts lines
262-330, `maxItems = 20`): reject empty or oversized batches with a 400
(`Except.error`), otherwise process every item, count successes with
`results.filter(r => r.success).length`, and report
`{total, successful, failed}`. -/
def batchEndpoint (process : α → Except String β) (failMsg sizeMsg : String)
    (maxItems : ℕ) (requests : List α) :
    Except String (List (BatchItemOutcome β) × BatchSummary) :=
  if requests.length = 0 ∨ requests.length > maxItems then .error sizeMsg
  else
    let results := batchResults process failMsg requests
    let successCount := (results.filter (fun r => r.success)).length
    .ok (results, ⟨requests.length, successCount,
                   requests.length - successCount⟩)

/- ===== mlService.ts ===== -/

/-- JS `Number.prototype.toFixed(3)`, read back by `parseFloat`.  Exact
real arithmetic stands in for IEEE doubles; ECMAScript `toFixed` picks
the closer 3-decimal value and resolves ties upward, which is `round`. -/
noncomputable def toFixed3R (x : ℝ) : ℝ := (round (1000 * x) : ℤ) / 1000

/-- The shared scoring loop of `linearRegression` and `classification`:
`for (let i = 0; i < Math.min(features.length, weights.length); i++)
acc += features[i]! * weights[i]!`, starting from the bias. -/
noncomputable def dotScore (features weights : List ℝ) (bias : ℝ) : ℝ :=
  (List.range (min features.length weights.length)).foldl
    (fun acc i => acc + features.getD i 0 * weights.getD i 0) bias

/-- Weight vector of `MLService.linearRegression`. -/
noncomputable def linRegWeights : List ℝ := [1/2, -(3/10), 4/5, 1/5, -(1/10)]

structure LinRegResult where
  prediction : ℝ
  confidence : ℝ
  accuracy : Option ℝ

/-- `MLService.linearRegression` (mlService.ts lines 20-49).  `noise`
is the draw `(Math.random() - 0.5) * 0.1`, taken as a parameter because
the PRNG is ambient runtime state; `accuracy` is absent from this
model's metadata. -/
noncomputable def linearRegression (features : List ℝ) (noise : ℝ) :
    LinRegResult :=
  ⟨toFixed3R (dotScore features linRegWeights (6/5) + noise), 17/20, none⟩

/-- Weight vector of `MLService.classification`. -/
noncomputable def mlClassWeights : List ℝ := [7/10, -(2/5), 3/5, -(1/5), 3/10]

structure MLClassifyResult where
  prediction : String
  confidence : ℝ
  probabilities : Option (ℝ × ℝ)
  accuracy : Option ℝ

open Classical in
/-- `MLService.classification` (mlService.ts lines 51-89): logistic
score with bias 0.1, sigmoid activation, threshold 0.5, confidence
`|probability - 0.5| * 2` to 3 decimals, optional probabilities each to
3 decimals. -/
noncomputable def mlClassification (features : List ℝ)
    (returnProbabilities : Bool := false) : MLClassifyResult :=
  let score := dotScore features mlClassWeights (1/10)
  let probability := 1 / (1 + Real.exp (-score))
  ⟨if probability > 1/2 then "positive" else "negative",
   toFixed3R (|probability - 1/2| * 2),
   if returnProbabilities then
     some (toFixed3R probability, toFixed3R (1 - probability))
   else none,
   some (89/100)⟩

/-- The fixed centroids of `MLService.clustering`. -/
noncomputable def centroids : List (List ℝ) :=
  [[1, 2, 3/2], [-1, 1/2, -(1/2)], [5/2, -1, 3]]

/-- Euclidean distance to one centroid over the index-aligned prefix. -/
noncomputable def distanceToCentroid (features centroid : List ℝ) : ℝ :=
  Real.sqrt ((List.range (min features.length centroid.length)).foldl
    (fun acc i => acc + (features.getD i 0 - centroid.getD i 0) ^ 2) 0)

open Classical in
/-- One step of the `centroids.forEach` loop of `clustering`: `st` is
`(minDistance, assignedCluster)` and `p` an indexed centroid; `none`
models `Infinity`, which every finite distance beats. -/
noncomputable def clusterStep (features : List ℝ) (st : Option ℝ × ℕ)
    (p : ℕ × List ℝ) : Option ℝ × ℕ :=
  let distance := distanceToCentroid features p.2
  if (match st.1 with | none => True | some m => distance < m) then
    (some distance, p.1)
  else st

/-- The `centroids.forEach` loop of `clustering`, tracking
`(minDistance, assignedCluster)`. -/
noncomputable def clusterFold (features : List ℝ) : Option ℝ × ℕ :=
  centroids.enum.foldl (clusterStep features) (none, 0)

structure ClusterResult where
  prediction : String
  confidence : ℝ
  distance : Option ℝ
  accuracy : Option ℝ

/-- `MLService.clustering` (mlService.ts lines 91-132).  The `0`
fallback is unreachable: `centroids` is non-empty, so the fold always
produces a finite minimum distance. -/
noncomputable def clustering (features : List ℝ) : ClusterResult :=
  let f := clusterFold features
  ⟨"cluster_" ++ toString f.2,
   match f.1 with
   | some d => toFixed3R (max (1/10) (1 - d / 10))
   | none => 0,
   f.1.map toFixed3R, none⟩

/-- The fixed normal ranges of `MLService.anomalyDetection`. -/
noncomputable def normalRanges : List (ℝ × ℝ) := [(-2, 2), (-1, 3), (0, 4), (-3, 1), (-1, 2)]

open Classical in
/-- The `features.forEach` loop of `anomalyDetection`, accumulating
`(anomalyScore, outOfRangeCount)`. -/
noncomputable def anomalyAccum (features : List ℝ) : ℝ × ℕ :=
  features.enum.foldl
    (fun st p =>
      if p.1 < normalRanges.length then
        let range := normalRanges.getD p.1 (0, 0)
        if p.2 < range.1 ∨ p.2 > range.2 then
          (st.1 + min |p.2 - range.1| |p.2 - range.2|, st.2 + 1)
        else st
      else st)
    (0, 0)

structure AnomalyResult where
  prediction : String
  confidence : Option ℝ
  anomalyScore : Option ℝ
  outOfRangeFeatures : ℕ

open Classical in
/-- `MLService.anomalyDetection` (mlService.ts lines 134-182).  On an
empty feature vector the accumulator and `features.length * 2` are both
0, so `anomalyScore = Math.min(1, 0/0)` is `NaN` (`none`); `NaN >
threshold` is `false`, so the label is `"normal"`, and
`Math.abs(NaN - threshold) + 0.1`, `Math.min(NaN, 1)` and `toFixed`
all propagate `NaN` into `confidence`. -/
noncomputable def anomalyDetection (features : List ℝ)
    (threshold : ℝ := 1/2) : AnomalyResult :=
  let acc := anomalyAccum features
  if features.length = 0 then ⟨"normal", none, none, acc.2⟩
  else
    let anomalyScore := min 1 (acc.1 / ((features.length : ℝ) * 2))
    ⟨if anomalyScore > threshold then "anomaly" else "normal",
     some (toFixed3R (min (|anomalyScore - threshold| + 1/10) 1)),
     some (toFixed3R anomalyScore), acc.2⟩

inductive ModelType
  | linear_regression
  | classification
  | clustering
  | anomaly_detection
  deriving DecidableEq

structure MLOptions where
  threshold : Option ℝ
  returnProbabilities : Option Bool

structure MLPredictionRequest where
  features : List ℝ
  modelType : ModelType
  options : Option MLOptions

inductive PredictionValue
  | num (x : ℝ)
  | label (s : String)

structure MLPredictionResponse where
  prediction : PredictionValue
  confidence : Option ℝ
  probabilities : Option (ℝ × ℝ)
  accuracy : ℝ

open Classical in
/-- JS `a || b` on an optional real (`result.modelInfo?.accuracy ||
0.85`). -/
noncomputable def jsOrDefaultR (o : Option ℝ) (d : ℝ) : ℝ :=
  match o with
  | none => d
  | some c => if c = 0 then d else c

/-- `MLService.makePrediction` (mlService.ts lines 184-225): dispatch
on the model kind, passing `options?.returnProbabilities` (default
`false`) and `options?.threshold` (default `0.5`), and substituting
accuracy 0.85 when the scorer's metadata has none. -/
noncomputable def makePrediction (request : MLPredictionRequest)
    (noise : ℝ) : MLPredictionResponse :=
  match request.modelType with
  | .linear_regression =>
      let r := linearRegression request.features noise
      ⟨.num r.prediction, some r.confidence, none, jsOrDefaultR r.accuracy (17/20)⟩
  | .classification =>
      let r := mlClassification request.features
        ((request.options.bind (fun o => o.returnProbabilities)).getD false)
      ⟨.label r.prediction, some r.confidence, r.probabilities,
       jsOrDefaultR r.accuracy (17/20)⟩
  | .clustering =>
      let r := clustering request.features
      ⟨.label r.prediction, some r.confidence, none, jsOrDefaultR r.accuracy (17/20)⟩
  | .anomaly_detection =>
      let r := anomalyDetection request.features
        ((request.options.bind (fun o => o.threshold)).getD (1/2))
      ⟨.label r.prediction, r.confidence, none, jsOrDefaultR none (17/20)⟩

/- ===== claim-side spec definitions ===== -/

/-- The claim's form of the classification probability: sigmoid of
`0.1 + Σ_{i < min(len, 5)} features[i]·weights[i]` with the weight
vector `[0.7, -0.4, 0.6, -0.2, 0.3]` written out literally. -/
noncomputable def claimProbability (features : List ℝ) : ℝ :=
  1 / (1 + Real.exp (-(1/10 + ∑ i ∈ Finset.range (min features.length 5),
    features.getD i 0 * ([7/10, -(2/5), 3/5, -(1/5), 3/10] : List ℝ).getD i 0)))

/-- `pat` occurs in `text` starting at position `i`. -/
def occursAt (text pat : Str) (i : ℕ) : Prop :=
  pat.isPrefixOf (text.drop i) = true

/-- A tiny concrete stand-in for the regex engine, used only to
instantiate the entity-extraction theorem at a concrete input; the
duplicated match mirrors a pattern matching twice. -/
def demoMatcher : EntityType → Str → Option (List Str)
  | .email, _ => some ["a@b.co".toList, "a@b.co".toList]
  | _, _ => none

/-- A concrete per-item processor for instantiating the batch theorem:
item `2` fails, everything else succeeds. -/
def demoProcess (n : ℕ) : Except String ℕ :=
  if n = 2 then .error "boom" else .ok (n + 1)

/-- Concrete prediction request: anomaly detection on an empty feature
vector (the `NaN` case). -/
noncomputable def anomalyEmptyRequest : MLPredictionRequest :=
  ⟨[], .anomaly_detection, none⟩

/-- Concrete prediction request: anomaly detection on a one-element
feature vector. -/
noncomputable def anomalyDemoRequest : MLPredictionRequest :=
  ⟨[1], .anomaly_detection, none⟩

/- ===== helper lemmas ===== -/

theorem sentimentCounts_foldl (l : List Str) (a b : ℕ) :
    l.foldl
      (fun counts word =>
        ((if positiveWords.contains word then counts.1 + 1 else counts.1),
         (if negativeWords.contains word then counts.2 + 1 else counts.2)))
      (a, b)
    = (a + l.countP (fun w => positiveWords.contains w),
       b + l.countP (fun w => negativeWords.contains w)) := by
  induction l generalizing a b with
  | nil => simp
  | cons w t ih =>
      simp only [List.foldl_cons, List.countP_cons, ih]
      by_cases hp : w ∈ positiveWords <;> by_cases hn : w ∈ negativeWords <;>
        simp [hp, hn] <;> omega

theorem sentimentCounts_eq_countP (words : List Str) :
    sentimentCounts words
      = (words.countP (fun w => positiveWords.contains w),
         words.countP (fun w => negativeWords.contains w)) := by
  unfold sentimentCounts
  rw [sentimentCounts_foldl]
  simp

/- ===== C3 ===== -/

/-- C3, counterexample: the code splits on the space character only, so
on `"good\ngreat"` (newline separator) it sees a single unknown word
and answers `neutral`, while the claim's whitespace-splitting algorithm
answers `positive`. -/
theorem analyzeSentiment_whitespace_counterexample :
    (analyzeSentiment "good\ngreat".toList).sentiment = "neutral" ∧
    (sentimentClaim (splitOnPred isJsWhitespace) "good\ngreat".toList).sentiment
      = "positive" := by
  constructor <;> decide

/-- C3 (amended): for every input text, sentiment analysis lower-cases
the text, splits it on the single space character `' '` (not on general
whitespace), counts matches `p` and `n` against the fixed positive and
negative word sets, and with `score = p - n` returns label/confidence
exactly as the claim states, with counts `positive = p`, `negative = n`
and `neutral = wordCount - p - n`. -/
theorem analyzeSentiment_space_split_spec (text : Str) :
    analyzeSentiment text = sentimentClaim (splitOnPred (fun c => c = ' ')) text := by
  unfold analyzeSentiment sentimentClaim
  simp only [sentimentCounts_eq_countP]

/- ===== C8 ===== -/

/-- C8: the `maxTokens` option never alters the summarization result
(the wall-clock `processingTime` field is outside the model): two runs
with different `maxTokens` agree on the summary, both lengths and the
compression ratio. -/
theorem summarizeText_maxTokens_noninterference (text : Str) (t1 t2 : ℕ) :
    summarizeText text t1 = summarizeText text t2 := rfl

/- ===== C10 ===== -/

theorem jsTrim_eq_nil_of_all_whitespace {s : Str}
    (h : s.all isJsWhitespace) : jsTrim s = [] := by
  have h1 : s.dropWhile isJsWhitespace = [] :=
    List.dropWhile_eq_nil_iff.mpr (fun x hx => List.all_eq_true.mp h x hx)
  simp [jsTrim, h1]

/-- C10: when every segment of the `[.!?]+` split is empty or
whitespace-only, the filtered sentence list is empty and the summary is
exactly the string `"."`. -/
theorem summarizeText_degenerate_dot (text : Str)
    (h : ∀ s ∈ splitRuns sentencePunct text, s.all isJsWhitespace) :
    (summarizeText text).summary = ['.'] := by
  have hs : sentencesOf text = [] := by
    refine List.filter_eq_nil_iff.mpr (fun s hsm => ?_)
    have := jsTrim_eq_nil_of_all_whitespace (h s hsm)
    simp [this]
  simp [summarizeText, hs, List.intercalate]

/-- C10, witness: a text of whitespace and sentence punctuation only. -/
theorem summarizeText_degenerate_dot_witness :
    (∀ s ∈ splitRuns sentencePunct "  !?. ".toList, s.all isJsWhitespace) ∧
    (summarizeText "  !?. ".toList).summary = ['.'] :=
  ⟨by decide, summarizeText_degenerate_dot ("  !?. ".toList) (by decide)⟩

/- ===== C1 ===== -/

theorem foldl_jsPickTop_last_max (l : List ScoredCategory) (a : ScoredCategory) :
    (l.foldl jsPickTop a) ∈ a :: l ∧
    (∀ x ∈ a :: l, x.score ≤ (l.foldl jsPickTop a).score) ∧
    ∃ l1 l2, a :: l = l1 ++ (l.foldl jsPickTop a) :: l2 ∧
      ∀ x ∈ l2, x.score < (l.foldl jsPickTop a).score := by
  induction l generalizing a with
  | nil =>
      exact ⟨List.mem_singleton.mpr rfl, by simp, [], [], rfl, by simp⟩
  | cons x t ih =>
      rw [List.foldl_cons]
      by_cases hax : x.score < a.score
      · have hpick : jsPickTop a x = a := if_pos hax
        rw [hpick]
        obtain ⟨hmem, hmax, l1, l2, hdec, hlt⟩ := ih a
        refine ⟨?_, ?_, ?_⟩
        · rcases List.mem_cons.mp hmem with h | h
          · rw [h]
            exact List.mem_cons_self _ _
          · exact List.mem_cons_of_mem _ (List.mem_cons_of_mem _ h)
        · intro y hy
          have ha := hmax a (List.mem_cons_self _ _)
          rcases List.mem_cons.mp hy with h | h
          · have hya : y.score = a.score := by rw [h]
            omega
          · rcases List.mem_cons.mp h with h2 | h2
            · have hy2 : y.score < a.score := h2 ▸ hax
              omega
            · exact hmax y (List.mem_cons_of_mem _ h2)
        · cases l1 with
          | nil =>
              obtain ⟨ha, hl⟩ := List.cons.inj hdec
              refine ⟨[], x :: t, ?_, ?_⟩
              · rw [List.nil_append, ← ha]
              · intro y hy
                have haf := hmax a (List.mem_cons_self _ _)
                rcases List.mem_cons.mp hy with h | h
                · have hy2 : y.score < a.score := h ▸ hax
                  omega
                · exact hlt y (hl ▸ h)
          | cons b l1p =>
              obtain ⟨hb, hl⟩ := List.cons.inj hdec
              refine ⟨a :: x :: l1p, l2, ?_, hlt⟩
              simp only [List.cons_append]
              conv_lhs => rw [hl]
              rfl
      · have hpick : jsPickTop a x = x := if_neg hax
        rw [hpick]
        obtain ⟨hmem, hmax, l1, l2, hdec, hlt⟩ := ih x
        refine ⟨List.mem_cons_of_mem _ hmem, ?_, a :: l1, l2, ?_, hlt⟩
        · intro y hy
          have hx := hmax x (List.mem_cons_self _ _)
          rcases List.mem_cons.mp hy with h | h
          · have : a.score ≤ x.score := Nat.not_lt.mp hax
            have hya : y.score = a.score := by rw [h]
            omega
          · exact hmax y h
        · simp only [List.cons_append]
          rw [← hdec]

theorem jsReduce_jsPickTop_last_max (l : List ScoredCategory)
    (r : ScoredCategory) (h : jsReduce jsPickTop l = some r) :
    r ∈ l ∧ (∀ x ∈ l, x.score ≤ r.score) ∧
      ∃ l1 l2, l = l1 ++ r :: l2 ∧ ∀ x ∈ l2, x.score < r.score := by
  cases l with
  | nil => simp [jsReduce] at h
  | cons a t =>
      have hr : r = t.foldl jsPickTop a := by
        simpa [jsReduce] using h.symm
      subst hr
      exact foldl_jsPickTop_last_max t a

/-- C1, counterexample: on the text `"game"` entertainment and sports
both score 1 (both keyword lists contain `game`), every other category
scores 0; the claim's tie-break (first category of highest score) picks
`entertainment`, but the code answers `sports` — on a tie the later
category replaces the current winner. -/
theorem classifyText_first_tie_counterexample :
    (classifyText "game".toList).category = "sports" ∧
    firstMaxCategory (categoryScores "game".toList) = some "entertainment" := by
  constructor <;> decide

/-- C1 (amended): the winning category is a category of highest keyword
score, and on ties the winner is the last such category in the fixed
enumeration order (technology, business, science, entertainment,
sports): a later category replaces the current winner whenever its
score is greater than or equal to the current winner's, so every
category listed after the winner scores strictly less. -/
theorem classifyText_last_max_spec (text : Str) :
    ∃ top, topCategory? text = some top ∧
      (classifyText text).category = top.category ∧
      top ∈ categoryScores text ∧
      (∀ c ∈ categoryScores text, c.score ≤ top.score) ∧
      ∃ l1 l2, categoryScores text = l1 ++ top :: l2 ∧
        ∀ c ∈ l2, c.score < top.score := by
  obtain ⟨c0, cs, hcs⟩ : ∃ c0 cs, categoryScores text = c0 :: cs := ⟨_, _, rfl⟩
  have htop : topCategory? text = some (cs.foldl jsPickTop c0) := by
    show jsReduce jsPickTop (categoryScores text) = _
    rw [hcs]
    rfl
  obtain ⟨hmem, hmax, l1, l2, hdec, hlt⟩ :=
    jsReduce_jsPickTop_last_max (categoryScores text) _ htop
  refine ⟨cs.foldl jsPickTop c0, htop, ?_, hmem, hmax, l1, l2, hdec, hlt⟩
  simp [classifyText, topCategory?] at htop ⊢
  rw [htop]

/-- C1, witness: the amended statement at the tie text `"game"`. -/
theorem classifyText_last_max_spec_witness :
    ∃ top, topCategory? "game".toList = some top ∧
      (classifyText "game".toList).category = top.category ∧
      top ∈ categoryScores "game".toList ∧
      (∀ c ∈ categoryScores "game".toList, c.score ≤ top.score) ∧
      ∃ l1 l2, categoryScores "game".toList = l1 ++ top :: l2 ∧
        ∀ c ∈ l2, c.score < top.score :=
  classifyText_last_max_spec ("game".toList)

/- ===== C7 ===== -/

/-- C7: `calculatePercentile` returns 0 on the empty list; on a
non-empty list it looks up position `max(0, ceil(p/100·n) - 1)` of an
ascending sort of the input (nearest-rank, no interpolation); and
`calculatePercentile [1,2,3,4,5] 95 = 5`. -/
theorem calculatePercentile_spec :
    (∀ p : ℚ, calculatePercentile [] p = some 0) ∧
    (∀ (numbers : List ℚ) (p : ℚ), numbers ≠ [] →
      ∃ sorted : List ℚ, sorted.Perm numbers ∧ sorted.Sorted (· ≤ ·) ∧
        calculatePercentile numbers p =
          sorted.get? (max 0 (⌈p / 100 * (numbers.length : ℚ)⌉ - 1)).toNat) ∧
    calculatePercentile [1, 2, 3, 4, 5] 95 = some 5 := by
  refine ⟨fun p => rfl, fun numbers p hne => ?_, ?_⟩
  · refine ⟨sortAsc numbers, List.perm_insertionSort _ numbers,
      List.sorted_insertionSort _ numbers, ?_⟩
    have hlen : (sortAsc numbers).length = numbers.length :=
      (List.perm_insertionSort _ numbers).length_eq
    simp only [calculatePercentile]
    rw [if_neg (by simpa [List.length_eq_zero] using hne)]
    rw [hlen]
  · have hsort : sortAsc [(1 : ℚ), 2, 3, 4, 5] = [1, 2, 3, 4, 5] := by
      simp [sortAsc, List.insertionSort, List.orderedInsert]
    have hceil : (⌈(95 : ℚ) / 100 * ((5 : ℕ) : ℚ)⌉ : ℤ) = 5 := by
      have h19 : (95 : ℚ) / 100 * ((5 : ℕ) : ℚ) = 19 / 4 := by norm_num
      rw [h19, Int.ceil_eq_iff] <;> norm_num
    simp only [calculatePercentile, hsort, List.length_cons, List.length_nil]
    rw [if_neg (by norm_num)]
    rw [hceil]
    rfl

/-- C7, witness: the non-empty case instantiated at `[1,2,3,4,5]`,
percentile 95. -/
theorem calculatePercentile_spec_witness :
    ([(1 : ℚ), 2, 3, 4, 5] ≠ []) ∧
    ∃ sorted : List ℚ, sorted.Perm [(1 : ℚ), 2, 3, 4, 5] ∧
      sorted.Sorted (· ≤ ·) ∧
      calculatePercentile [(1 : ℚ), 2, 3, 4, 5] 95 =
        sorted.get? (max 0 (⌈(95 : ℚ) / 100 * (([(1 : ℚ), 2, 3, 4, 5].length : ℕ) : ℚ)⌉ - 1)).toNat :=
  ⟨by simp, calculatePercentile_spec.2.1 [(1 : ℚ), 2, 3, 4, 5] 95 (by simp)⟩

/- ===== C9 ===== -/

theorem readArr_copy_sort_frame (st : ArrayStore) (r : ℕ) (v w : List ℚ)
    (hr : r < st.length) :
    readArr (writeArr (st ++ [v]) st.length w) r = readArr st r := by
  unfold readArr writeArr
  rw [List.getD_eq_getElem?_getD, List.getD_eq_getElem?_getD]
  rw [List.getElem?_set_ne (by omega)]
  rw [List.getElem?_append, if_pos hr]

/-- C9: neither `calculateMedian` nor `calculatePercentile` mutates the
caller's array: each sorts a spread copy, so after the call the array
behind the caller's reference holds the same elements in the same
order. -/
theorem stats_sort_frame (st : ArrayStore) (r : ℕ) (p : ℚ) :
    readArr (calculateMedianS st r).2 r = readArr st r ∧
    readArr (calculatePercentileS st r p).2 r = readArr st r := by
  have key : ∀ w : List ℚ, r < st.length →
      readArr (writeArr (st ++ [readArr st r]) st.length w) r = readArr st r :=
    fun w hr => readArr_copy_sort_frame st r _ w hr
  have hcase : (readArr st r).length = 0 ∨ r < st.length := by
    by_cases hr : r < st.length
    · exact Or.inr hr
    · left
      unfold readArr
      rw [List.getD_eq_default _ _ (by omega)]
      rfl
  constructor
  · unfold calculateMedianS
    rcases hcase with h0 | hr
    · rw [if_pos h0]
    · by_cases h0 : (readArr st r).length = 0
      · rw [if_pos h0]
      · rw [if_neg h0]
        exact key _ hr
  · unfold calculatePercentileS
    rcases hcase with h0 | hr
    · rw [if_pos h0]
    · by_cases h0 : (readArr st r).length = 0
      · rw [if_pos h0]
      · rw [if_neg h0]
        exact key _ hr

/- ===== C4 ===== -/

theorem batchItem_index (process : α → Except String β) (failMsg : String)
    (i : ℕ) (r : α) : (batchItem process failMsg i r).index = i := by
  unfold batchItem
  cases process r <;> rfl

theorem batchItem_success (process : α → Except String β) (failMsg : String)
    (i : ℕ) (r : α) :
    (batchItem process failMsg i r).success = (process r).isOk := by
  unfold batchItem
  cases process r <;> rfl

theorem batchResults_length (process : α → Except String β) (failMsg : String)
    (requests : List α) :
    (batchResults process failMsg requests).length = requests.length := by
  simp [batchResults, List.enum_length]

theorem batchResults_countP_isOk (process : α → Except String β)
    (failMsg : String) (requests : List α) :
    (batchResults process failMsg requests).countP (fun r => r.success)
      = requests.countP (fun r => (process r).isOk) := by
  unfold batchResults
  rw [List.countP_map]
  have h1 : ((fun r : BatchItemOutcome β => r.success) ∘
      (fun p : ℕ × α => batchItem process failMsg p.1 p.2))
      = fun p : ℕ × α => (process p.2).isOk := by
    funext p
    exact batchItem_success process failMsg p.1 p.2
  rw [h1]
  have h2 : (fun p : ℕ × α => (process p.2).isOk)
      = (fun r => (process r).isOk) ∘ Prod.snd := rfl
  rw [h2, ← List.countP_map, List.enum_map_snd]

/-- C4: for every batch whose size respects the caller-enforced ceiling
and in which exactly one item's processing raises, the endpoint answers
200 with exactly N outcomes in input order (outcome i carries index i
and reports the success of request i, so the failing item is reported
with `success = false` instead of aborting the batch), and the summary
is `{total = N, successful = N - 1, failed = 1}`. -/
theorem batchEndpoint_single_failure {α β : Type} (process : α → Except String β)
    (failMsg sizeMsg : String) (maxItems : ℕ) (requests : List α)
    (hle : requests.length ≤ maxItems)
    (hone : requests.countP (fun r => !(process r).isOk) = 1) :
    ∃ results summary,
      batchEndpoint process failMsg sizeMsg maxItems requests
        = .ok (results, summary) ∧
      results.length = requests.length ∧
      (∀ i (hi : i < results.length), (results.get ⟨i, hi⟩).index = i) ∧
      (∀ i (hi : i < results.length) (hi2 : i < requests.length),
        (results.get ⟨i, hi⟩).success = (process (requests.get ⟨i, hi2⟩)).isOk) ∧
      summary.total = requests.length ∧
      summary.successful = requests.length - 1 ∧
      summary.failed = 1 := by
  have hcount := List.length_eq_countP_add_countP (fun r => (process r).isOk) requests
  have hnot : requests.countP
      (fun r => decide ¬((fun r => (process r).isOk) r = true))
      = requests.countP (fun r => !(process r).isOk) := by
    apply List.countP_congr
    intro r _
    cases hp : process r <;> simp [hp]
  rw [hnot, hone] at hcount
  have hpos : 0 < requests.length := by omega
  have hguard : ¬(requests.length = 0 ∨ requests.length > maxItems) := by
    push_neg
    omega
  have hok : requests.countP (fun r => (process r).isOk)
      = requests.length - 1 := by omega
  have hfil : ((batchResults process failMsg requests).filter
      (fun r => r.success)).length = requests.length - 1 := by
    rw [← List.countP_eq_length_filter, batchResults_countP_isOk, hok]
  refine ⟨batchResults process failMsg requests,
    ⟨requests.length,
     ((batchResults process failMsg requests).filter (fun r => r.success)).length,
     requests.length -
       ((batchResults process failMsg requests).filter (fun r => r.success)).length⟩,
    ?_, batchResults_length process failMsg requests, ?_, ?_, rfl, ?_, ?_⟩
  · unfold batchEndpoint
    rw [if_neg hguard]
  · intro i hi
    have hi2 : i < requests.enum.length := by
      simpa [batchResults, List.enum_length] using hi
    show ((requests.enum.map
      (fun p => batchItem process failMsg p.1 p.2)).get ⟨i, by
        simpa [batchResults] using hi⟩).index = i
    rw [List.get_map]
    rw [batchItem_index]
    have := List.getElem_enum requests i (by simpa [List.enum_length] using hi2)
    simp only [List.get_eq_getElem]
    rw [this]
  · intro i hi hi2
    show ((requests.enum.map
      (fun p => batchItem process failMsg p.1 p.2)).get ⟨i, by
        simpa [batchResults] using hi⟩).success
      = (process (requests.get ⟨i, hi2⟩)).isOk
    rw [List.get_map]
    rw [batchItem_success]
    have he := List.getElem_enum requests i
      (by simpa [List.enum_length, batchResults] using hi)
    simp only [List.get_eq_getElem]
    rw [he]
  · exact hfil
  · show requests.length -
      ((batchResults process failMsg requests).filter (fun r => r.success)).length = 1
    rw [hfil]
    omega

/-- C4, witness: a batch of three items in which exactly item `2`
raises, under the prediction route's ceiling of 20. -/
theorem batchEndpoint_single_failure_witness :
    (([1, 2, 3] : List ℕ).length ≤ 20 ∧
     ([1, 2, 3] : List ℕ).countP (fun r => !(demoProcess r).isOk) = 1) ∧
    ∃ results summary,
      batchEndpoint demoProcess "Prediction failed"
          "Requests must be an array with 1-20 items" 20 [1, 2, 3]
        = .ok (results, summary) ∧
      results.length = ([1, 2, 3] : List ℕ).length ∧
      (∀ i (hi : i < results.length), (results.get ⟨i, hi⟩).index = i) ∧
      (∀ i (hi : i < results.length) (hi2 : i < ([1, 2, 3] : List ℕ).length),
        (results.get ⟨i, hi⟩).success
          = (demoProcess (([1, 2, 3] : List ℕ).get ⟨i, hi2⟩)).isOk) ∧
      summary.total = ([1, 2, 3] : List ℕ).length ∧
      summary.successful = ([1, 2, 3] : List ℕ).length - 1 ∧
      summary.failed = 1 :=
  ⟨⟨by decide, by decide⟩,
   batchEndpoint_single_failure demoProcess "Prediction failed"
     "Requests must be an array with 1-20 items" 20 [1, 2, 3]
     (by decide) (by decide)⟩

/- ===== C6 ===== -/

theorem extractEntities_eq_join (matchOf : EntityType → Str → Option (List Str))
    (text : Str) :
    extractEntities matchOf text
      = (entityTypeOrder.map
          (fun ty => ((matchOf ty text).getD []).map (mkEntity text ty))).join := by
  have hstep : ∀ (l : List EntityType) (init : List Entity),
      l.foldl (fun entities ty =>
        match matchOf ty text with
        | none => entities
        | some ms => entities ++ ms.map (mkEntity text ty)) init
      = init ++ (l.map
          (fun ty => ((matchOf ty text).getD []).map (mkEntity text ty))).join := by
    intro l
    induction l with
    | nil => simp
    | cons ty rest ih =>
        intro init
        simp only [List.foldl_cons, List.map_cons, List.join]
        cases hm : matchOf ty text with
        | none => simp [ih, hm]
        | some ms => simp [ih, hm]
  simpa [extractEntities] using hstep entityTypeOrder []

theorem indexOfAux_some_spec (pat : Str) (s : Str) (i : ℕ)
    (h : indexOfAux pat s = some i) :
    pat.isPrefixOf (s.drop i) = true ∧
      ∀ j < i, ¬(pat.isPrefixOf (s.drop j) = true) := by
  induction s generalizing i with
  | nil =>
      unfold indexOfAux at h
      by_cases hemp : pat.isEmpty
      · rw [if_pos hemp] at h
        obtain rfl : i = 0 := by simpa using h.symm
        refine ⟨?_, by omega⟩
        have : pat = [] := List.isEmpty_iff.mp hemp
        simp [this, List.isPrefixOf]
      · rw [if_neg hemp] at h
        exact absurd h (by simp)
  | cons c rest ih =>
      unfold indexOfAux at h
      by_cases hp : pat.isPrefixOf (c :: rest)
      · rw [if_pos hp] at h
        obtain rfl : i = 0 := by simpa using h.symm
        exact ⟨by simpa using hp, by omega⟩
      · rw [if_neg hp] at h
        obtain ⟨k, hk, rfl⟩ : ∃ k, indexOfAux pat rest = some k ∧ i = k + 1 := by
          cases hx : indexOfAux pat rest with
          | none => rw [hx] at h; simp at h
          | some k =>
              rw [hx] at h
              exact ⟨k, rfl, by simpa using h.symm⟩
        obtain ⟨h1, h2⟩ := ih k hk
        refine ⟨by simpa using h1, ?_⟩
        intro j hj
        cases j with
        | zero => simpa using hp
        | succ j2 =>
            have : j2 < k := by omega
            simpa using h2 j2 this

theorem indexOfAux_isSome_of_occurs (pat : Str) (s : Str)
    (h : ∃ i, pat.isPrefixOf (s.drop i) = true) :
    ∃ i, indexOfAux pat s = some i := by
  induction s with
  | nil =>
      obtain ⟨i, hi⟩ := h
      have hemp : pat.isEmpty := by
        cases pat with
        | nil => rfl
        | cons a t => simp [List.isPrefixOf] at hi
      exact ⟨0, by simp [indexOfAux, hemp]⟩
  | cons c rest ih =>
      by_cases hp : pat.isPrefixOf (c :: rest)
      · exact ⟨0, by simp [indexOfAux, hp]⟩
      · obtain ⟨i, hi⟩ := h
        have hi2 : ∃ i2, pat.isPrefixOf (rest.drop i2) = true := by
          cases i with
          | zero => exact absurd (by simpa using hi) hp
          | succ i2 => exact ⟨i2, by simpa using hi⟩
        obtain ⟨k, hk⟩ := ih hi2
        exact ⟨k + 1, by simp [indexOfAux, hp, hk]⟩

/-- C6: the entity list is exactly the per-type match blocks joined in
the fixed order email, phone, date, url, money (match order within each
type); every emitted entity has confidence 0.9, `startIndex` equal to
`text.indexOf(entity.text)` and `endIndex = startIndex + length`; and
whenever the matched substring occurs in the text at all, `startIndex`
is the position of its first occurrence — so repeated identical matches
all report the same first-occurrence indices. -/
theorem extractEntities_spec (matchOf : EntityType → Str → Option (List Str))
    (text : Str) :
    extractEntities matchOf text
      = (entityTypeOrder.map
          (fun ty => ((matchOf ty text).getD []).map (mkEntity text ty))).join ∧
    ∀ e ∈ extractEntities matchOf text,
      e.confidence = 9/10 ∧
      e.startIndex = strIndexOf text e.text ∧
      e.endIndex = strIndexOf text e.text + (e.text.length : ℤ) ∧
      ((∃ i, occursAt text e.text i) →
        ∃ i : ℕ, e.startIndex = (i : ℤ) ∧ occursAt text e.text i ∧
          ∀ j < i, ¬occursAt text e.text j) := by
  refine ⟨extractEntities_eq_join matchOf text, fun e he => ?_⟩
  have hshape : ∃ ty m, e = mkEntity text ty m := by
    rw [extractEntities_eq_join matchOf text] at he
    obtain ⟨block, hbl, hebl⟩ := List.mem_join.mp he
    obtain ⟨ty, _, hty⟩ := List.mem_map.mp hbl
    rw [← hty] at hebl
    obtain ⟨m, _, hm⟩ := List.mem_map.mp hebl
    exact ⟨ty, m, hm.symm⟩
  obtain ⟨ty, m, rfl⟩ := hshape
  have htext : (mkEntity text ty m).text = m := rfl
  refine ⟨rfl, rfl, rfl, fun hocc => ?_⟩
  rw [htext] at hocc ⊢
  obtain ⟨i, hi⟩ := indexOfAux_isSome_of_occurs m text hocc
  obtain ⟨h1, h2⟩ := indexOfAux_some_spec m text i hi
  refine ⟨i, ?_, h1, fun j hj => h2 j hj⟩
  show strIndexOf text m = (i : ℤ)
  unfold strIndexOf
  rw [hi]

/-- C6, witness: the concrete matcher that returns the same email match
twice on the text `"a@b.co"`. -/
theorem extractEntities_spec_witness :
    mkEntity "a@b.co".toList .email "a@b.co".toList
        ∈ extractEntities demoMatcher "a@b.co".toList ∧
    ((mkEntity "a@b.co".toList .email "a@b.co".toList).confidence = 9/10 ∧
     (mkEntity "a@b.co".toList .email "a@b.co".toList).startIndex
        = strIndexOf "a@b.co".toList
            (mkEntity "a@b.co".toList .email "a@b.co".toList).text ∧
     (mkEntity "a@b.co".toList .email "a@b.co".toList).endIndex
        = strIndexOf "a@b.co".toList
            (mkEntity "a@b.co".toList .email "a@b.co".toList).text
          + ((mkEntity "a@b.co".toList .email "a@b.co".toList).text.length : ℤ) ∧
     ((∃ i, occursAt "a@b.co".toList
          (mkEntity "a@b.co".toList .email "a@b.co".toList).text i) →
        ∃ i : ℕ,
          (mkEntity "a@b.co".toList .email "a@b.co".toList).startIndex = (i : ℤ) ∧
          occursAt "a@b.co".toList
            (mkEntity "a@b.co".toList .email "a@b.co".toList).text i ∧
          ∀ j < i, ¬occursAt "a@b.co".toList
            (mkEntity "a@b.co".toList .email "a@b.co".toList).text j)) := by
  have hm : mkEntity "a@b.co".toList .email "a@b.co".toList
      ∈ extractEntities demoMatcher "a@b.co".toList := by
    have hlist : extractEntities demoMatcher "a@b.co".toList
        = [mkEntity "a@b.co".toList .email "a@b.co".toList,
           mkEntity "a@b.co".toList .email "a@b.co".toList] := rfl
    rw [hlist]
    exact List.mem_cons_self _ _
  exact ⟨hm, (extractEntities_spec demoMatcher ("a@b.co".toList)).2 _ hm⟩

/- ===== C5 ===== -/

theorem foldl_add_range (g : ℕ → ℝ) (b : ℝ) (n : ℕ) :
    (List.range n).foldl (fun acc i => acc + g i) b
      = b + ∑ i ∈ Finset.range n, g i := by
  induction n with
  | zero => simp
  | succ n ih =>
      rw [List.range_succ, List.foldl_append, ih, Finset.sum_range_succ]
      simp [add_assoc]

theorem dotScore_eq_sum (features weights : List ℝ) (bias : ℝ) :
    dotScore features weights bias
      = bias + ∑ i ∈ Finset.range (min features.length weights.length),
          features.getD i 0 * weights.getD i 0 := by
  unfold dotScore
  exact foldl_add_range _ bias _

theorem abs_toFixed3R_sub (x : ℝ) : |toFixed3R x - x| ≤ 1 / 2000 := by
  unfold toFixed3R
  have h := abs_sub_round (1000 * x)
  have heq : ((round (1000 * x) : ℤ) : ℝ) / 1000 - x
      = (1000 * x - ((round (1000 * x) : ℤ) : ℝ)) * (-(1 / 1000)) := by
    ring
  rw [heq, abs_mul]
  have habs : |(-(1 / 1000) : ℝ)| = 1 / 1000 := by norm_num
  rw [habs]
  nlinarith [abs_nonneg (1000 * x - ((round (1000 * x) : ℤ) : ℝ))]

theorem toFixed3R_mem_unit {x : ℝ} (h0 : 0 ≤ x) (h1 : x ≤ 1) :
    0 ≤ toFixed3R x ∧ toFixed3R x ≤ 1 := by
  have h := abs_le.mp (abs_sub_round (1000 * x))
  have hlo : (-1 : ℤ) < round (1000 * x) := by
    have hr : (-1 : ℝ) < ((round (1000 * x) : ℤ) : ℝ) := by nlinarith [h.1, h.2]
    exact_mod_cast hr
  have hhi : round (1000 * x) < (1001 : ℤ) := by
    have hr : ((round (1000 * x) : ℤ) : ℝ) < 1001 := by nlinarith [h.1, h.2]
    exact_mod_cast hr
  unfold toFixed3R
  constructor
  · apply div_nonneg _ (by norm_num)
    exact_mod_cast Int.le_of_lt_add_one (by omega)
  · rw [div_le_one (by norm_num)]
    exact_mod_cast Int.le_of_lt_add_one (by omega)

theorem toFixed3R_sum_near_one (p : ℝ) :
    |toFixed3R p + toFixed3R (1 - p) - 1| ≤ 1 / 100 := by
  have h1 := abs_toFixed3R_sub p
  have h2 := abs_toFixed3R_sub (1 - p)
  have heq : toFixed3R p + toFixed3R (1 - p) - 1
      = (toFixed3R p - p) + (toFixed3R (1 - p) - (1 - p)) := by ring
  rw [heq]
  calc |(toFixed3R p - p) + (toFixed3R (1 - p) - (1 - p))|
      ≤ |toFixed3R p - p| + |toFixed3R (1 - p) - (1 - p)| := abs_add _ _
    _ ≤ 1 / 2000 + 1 / 2000 := add_le_add h1 h2
    _ ≤ 1 / 100 := by norm_num

theorem mlClassification_probability_eq (features : List ℝ) :
    (1 : ℝ) / (1 + Real.exp (-(dotScore features mlClassWeights (1/10))))
      = claimProbability features := by
  unfold claimProbability
  rw [dotScore_eq_sum]
  simp [mlClassWeights]

/-- C5: binary classification computes the logistic probability of the
claim's score formula, labels `positive` iff `probability > 0.5` and
`negative` otherwise, reports `|probability - 0.5|·2` rounded to 3
decimals as confidence, reports the two probabilities (each rounded to
3 decimals) exactly when `returnProbabilities` is set, and the two
reported probabilities always sum to within 0.01 of 1. -/
theorem mlClassification_spec (features : List ℝ) (rp : Bool) :
    (mlClassification features rp).prediction
      = (if claimProbability features > 1/2 then "positive" else "negative") ∧
    (mlClassification features rp).confidence
      = toFixed3R (|claimProbability features - 1/2| * 2) ∧
    (mlClassification features rp).probabilities
      = (if rp then
          some (toFixed3R (claimProbability features),
                toFixed3R (1 - claimProbability features))
         else none) ∧
    |toFixed3R (claimProbability features)
      + toFixed3R (1 - claimProbability features) - 1| ≤ 1 / 100 := by
  have hp := mlClassification_probability_eq features
  simp only [mlClassification]
  rw [hp]
  exact ⟨rfl, rfl, rfl, toFixed3R_sum_near_one _⟩

/- ===== C2 ===== -/

theorem min_half_bound (q : ℚ) (hq : 0 ≤ q) :
    1/2 ≤ min (9/10) (1/2 + q * (1/10)) ∧ min (9/10) (1/2 + q * (1/10)) ≤ 9/10 :=
  ⟨le_min (by norm_num) (by linarith), min_le_left _ _⟩

theorem analyzeSentiment_confidence_bounds (text : Str) :
    1/2 ≤ (analyzeSentiment text).confidence ∧
      (analyzeSentiment text).confidence ≤ 9/10 := by
  simp only [analyzeSentiment]
  split_ifs with h1 h2
  · exact min_half_bound _ (by exact_mod_cast le_of_lt h1)
  · exact min_half_bound _ (abs_nonneg _)
  · constructor <;> norm_num

theorem categoryScores_confidence_bounds (text : Str) :
    ∀ c ∈ categoryScores text, 0 ≤ c.confidence ∧ c.confidence ≤ 1 := by
  intro c hc
  obtain ⟨cat, _, rfl⟩ := List.mem_map.mp hc
  simp only [scoreCategory]
  constructor
  · apply le_min (by norm_num)
    positivity
  · calc min (19/20) ((cat.2.countP fun keyword =>
          hasSubstr keyword (lowerStr text) : ℚ) * (1/5) + 1/10)
        ≤ 19/20 := min_le_left _ _
      _ ≤ 1 := by norm_num

theorem classifyText_confidence_bounds (text : Str) :
    0 ≤ (classifyText text).confidence ∧ (classifyText text).confidence ≤ 1 := by
  cases htop : topCategory? text with
  | none => simp [classifyText, htop]
  | some top =>
      have hmem : top ∈ categoryScores text :=
        (jsReduce_jsPickTop_last_max _ top htop).1
      have hb := categoryScores_confidence_bounds text top hmem
      simpa [classifyText, htop] using hb

theorem jsOrDefault_bounds (o : Option ℚ) (d : ℚ) (hd0 : 0 ≤ d) (hd1 : d ≤ 1)
    (hc : ∀ c, o = some c → 0 ≤ c ∧ c ≤ 1) :
    0 ≤ jsOrDefault o d ∧ jsOrDefault o d ≤ 1 := by
  cases o with
  | none => exact ⟨hd0, hd1⟩
  | some c =>
      by_cases h0 : c = 0
      · simpa [jsOrDefault, h0] using ⟨hd0, hd1⟩
      · simpa [jsOrDefault, h0] using hc c rfl

theorem processAnalysis_confidence_bounds
    (matchOf : EntityType → Str → Option (List Str))
    (request : AIAnalysisRequest) :
    0 ≤ (processAnalysis matchOf request).confidence ∧
      (processAnalysis matchOf request).confidence ≤ 1 := by
  cases hty : request.analysisType with
  | sentiment =>
      simp only [processAnalysis, hty, analysisDataConfidence]
      apply jsOrDefault_bounds _ _ (by norm_num) (by norm_num)
      intro c hc
      obtain rfl : (analyzeSentiment request.text).confidence = c :=
        Option.some.inj hc
      have hb := analyzeSentiment_confidence_bounds request.text
      constructor <;> linarith [hb.1, hb.2]
  | classification =>
      simp only [processAnalysis, hty, analysisDataConfidence]
      apply jsOrDefault_bounds _ _ (by norm_num) (by norm_num)
      intro c hc
      obtain rfl : (classifyText request.text).confidence = c :=
        Option.some.inj hc
      exact classifyText_confidence_bounds request.text
  | summarization =>
      simp only [processAnalysis, hty, analysisDataConfidence, jsOrDefault]
      norm_num
  | translation =>
      simp only [processAnalysis, hty, analysisDataConfidence, translateText,
        jsOrDefault]
      norm_num
  | entity_extraction =>
      simp only [processAnalysis, hty, analysisDataConfidence, jsOrDefault]
      norm_num

theorem clusterStep_preserves (features : List ℝ) (st : Option ℝ × ℕ)
    (p : ℕ × List ℝ) :
    (st.1 = none → ∃ d, (clusterStep features st p).1 = some d ∧ 0 ≤ d) ∧
    (∀ d0, st.1 = some d0 → 0 ≤ d0 →
      ∃ d, (clusterStep features st p).1 = some d ∧ 0 ≤ d) := by
  have hd : 0 ≤ distanceToCentroid features p.2 := Real.sqrt_nonneg _
  constructor
  · intro h
    refine ⟨distanceToCentroid features p.2, ?_, hd⟩
    simp [clusterStep, h]
  · intro d0 h hd0
    by_cases hlt : distanceToCentroid features p.2 < d0
    · refine ⟨distanceToCentroid features p.2, ?_, hd⟩
      simp [clusterStep, h, hlt]
    · refine ⟨d0, ?_, hd0⟩
      simp [clusterStep, h, hlt]

theorem clusterFold_fst_some (features : List ℝ) :
    ∃ d, (clusterFold features).1 = some d ∧ 0 ≤ d := by
  have hinv : ∀ (l : List (ℕ × List ℝ)) (st : Option ℝ × ℕ),
      (∃ d0, st.1 = some d0 ∧ 0 ≤ d0) →
      ∃ d, ((l.foldl (clusterStep features) st).1 = some d ∧ 0 ≤ d) := by
    intro l
    induction l with
    | nil =>
        intro st h
        simpa using h
    | cons p t ih =>
        intro st h
        obtain ⟨d0, hst, hd0⟩ := h
        rw [List.foldl_cons]
        exact ih _ ((clusterStep_preserves features st p).2 d0 hst hd0)
  have henum : centroids.enum
      = (0, ([1, 2, 3/2] : List ℝ)) ::
        [(1, ([-1, 1/2, -(1/2)] : List ℝ)), (2, ([5/2, -1, 3] : List ℝ))] := rfl
  unfold clusterFold
  rw [henum, List.foldl_cons]
  exact hinv _ _ ((clusterStep_preserves features (none, 0) _).1 rfl)

theorem makePrediction_confidence_bounds (request : MLPredictionRequest)
    (noise : ℝ)
    (h : request.modelType = ModelType.anomaly_detection →
      request.features ≠ []) :
    ∃ c, (makePrediction request noise).confidence = some c ∧
      0 ≤ c ∧ c ≤ 1 := by
  cases hty : request.modelType with
  | linear_regression =>
      refine ⟨17/20, ?_, by norm_num, by norm_num⟩
      simp [makePrediction, hty, linearRegression]
  | classification =>
      have he := Real.exp_pos (-(dotScore request.features mlClassWeights (1/10)))
      set ev := Real.exp (-(dotScore request.features mlClassWeights (1/10)))
        with hev
      have hp0 : 0 < 1 / (1 + ev) := by positivity
      have hp1 : 1 / (1 + ev) < 1 := by
        rw [div_lt_one (by linarith)]
        linarith
      have habs : |1 / (1 + ev) - 1/2| ≤ 1/2 :=
        abs_le.mpr ⟨by linarith, by linarith⟩
      have h0 : (0 : ℝ) ≤ |1 / (1 + ev) - 1/2| * 2 := by positivity
      have h1 : |1 / (1 + ev) - 1/2| * 2 ≤ 1 := by linarith
      obtain ⟨hl, hr⟩ := toFixed3R_mem_unit h0 h1
      refine ⟨toFixed3R (|1 / (1 + ev) - 1/2| * 2), ?_, hl, hr⟩
      simp only [makePrediction, hty, mlClassification]
  | clustering =>
      obtain ⟨d, hd, hd0⟩ := clusterFold_fst_some request.features
      have h0 : (0 : ℝ) ≤ max (1/10) (1 - d / 10) := by
        have := le_max_left (1/10 : ℝ) (1 - d / 10)
        linarith
      have h1 : max (1/10) (1 - d / 10) ≤ 1 :=
        max_le (by norm_num) (by linarith)
      obtain ⟨hl, hr⟩ := toFixed3R_mem_unit h0 h1
      refine ⟨toFixed3R (max (1/10) (1 - d / 10)), ?_, hl, hr⟩
      simp only [makePrediction, hty, clustering]
      rw [hd]
  | anomaly_detection =>
      have hne : request.features ≠ [] := h hty
      have hlen : request.features.length ≠ 0 := by
        simpa [List.length_eq_zero] using hne
      set s := min 1 ((anomalyAccum request.features).1 /
        ((request.features.length : ℝ) * 2)) with hs
      set t := ((request.options.bind (fun o => o.threshold)).getD (1/2)) with ht
      have h0 : (0 : ℝ) ≤ min (|s - t| + 1/10) 1 :=
        le_min (by positivity) (by norm_num)
      have h1 : min (|s - t| + 1/10) 1 ≤ 1 := min_le_right _ _
      obtain ⟨hl, hr⟩ := toFixed3R_mem_unit h0 h1
      refine ⟨toFixed3R (min (|s - t| + 1/10) 1), ?_, hl, hr⟩
      simp only [makePrediction, hty, anomalyDetection]
      rw [if_neg hlen, ← hs, ← ht]

/-- C2, counterexample: anomaly detection on the empty feature vector
divides 0 by 0, so the returned confidence is `NaN` (`none`), not a
real number in `[0, 1]`. -/
theorem makePrediction_empty_anomaly_nan :
    (makePrediction anomalyEmptyRequest 0).confidence = none := by
  simp [makePrediction, anomalyEmptyRequest, anomalyDetection]

/-- C2 (amended): every analysis response carries a confidence in
`[0, 1]`, and every prediction response carries a confidence
`some c` with `c ∈ [0, 1]` — except anomaly detection on the empty
feature vector, whose confidence is `NaN` (`none`). -/
theorem confidence_in_unit_interval :
    (∀ (matchOf : EntityType → Str → Option (List Str))
        (request : AIAnalysisRequest),
      0 ≤ (processAnalysis matchOf request).confidence ∧
        (processAnalysis matchOf request).confidence ≤ 1) ∧
    (∀ (request : MLPredictionRequest) (noise : ℝ),
      (request.modelType = ModelType.anomaly_detection →
        request.features ≠ []) →
      ∃ c, (makePrediction request noise).confidence = some c ∧
        0 ≤ c ∧ c ≤ 1) :=
  ⟨processAnalysis_confidence_bounds, makePrediction_confidence_bounds⟩

/-- C2, witness: anomaly detection on the one-element feature vector
`[1]` (and, implicitly, the non-emptiness hypothesis discharged). -/
theorem confidence_in_unit_interval_witness :
    (anomalyDemoRequest.modelType = ModelType.anomaly_detection →
      anomalyDemoRequest.features ≠ []) ∧
    ∃ c, (makePrediction anomalyDemoRequest 0).confidence = some c ∧
      0 ≤ c ∧ c ≤ 1 :=
  ⟨fun _ => by simp [anomalyDemoRequest],
   confidence_in_unit_interval.2 anomalyDemoRequest 0
     (fun _ => by simp [anomalyDemoRequest])⟩

end TrainingProject
